import Mathlib

set_option maxHeartbeats 1000000
set_option autoImplicit false

/-! # Shallow embedding of the Cost-Manager rate-aware ledger core

Embeds the rate/ledger/report logic of the repository:
* `CurrencySvc` — the React `services/currency.ts` module (rate source state,
  `normalizeRates`, `convert`, `setRatesUrl`, `setInlineRates`, `refreshRatesFromUrl`);
* `IdbSvc` — the React `services/idb.ts` module (`addCost`, `conv`, `getReport`,
  `getMonthCategoryTotals`, `getYearMonthTotals`, `importFromJson`);
* `VanillaIdb` — the `public/vanilla/idb.js` wrapper (`normalizeRates`,
  `setRatesUrl`, `setInlineRates`, `ensureRates`, `refreshRatesFromUrl`,
  `convert`, `addCost`, `getReport`).

JavaScript numbers are modelled as `JSNum` (NaN, the two infinities, or an exact
rational); code that can throw is modelled in `Except String`.  Network fetches
cannot be executed, so every operation that fetches takes the outcome of the
fetch as an explicit argument and reports the list of URLs it fetched, letting
theorems talk about whether a network request was issued. -/

/-- A JavaScript number: NaN, +Infinity, -Infinity, or a finite value
(modelled as an exact rational). -/
inductive JSNum where
  | nan
  | inf
  | ninf
  | fin (q : ℚ)
deriving DecidableEq

/-- JavaScript truthiness of a number: `NaN` and `0` are falsy. -/
def jsTruthy : JSNum → Bool
  | .nan => false
  | .fin q => q != 0
  | _ => true

/-- JavaScript `a || b` on numbers. -/
def jsOr (a b : JSNum) : JSNum := if jsTruthy a then a else b

/-- `Number.isFinite`. -/
def jsIsFinite : JSNum → Bool
  | .fin _ => true
  | _ => false

/-- JavaScript `+` on numbers. -/
def jsAdd : JSNum → JSNum → JSNum
  | .nan, _ => .nan
  | _, .nan => .nan
  | .inf, .ninf => .nan
  | .ninf, .inf => .nan
  | .inf, _ => .inf
  | _, .inf => .inf
  | .ninf, _ => .ninf
  | _, .ninf => .ninf
  | .fin a, .fin b => .fin (a + b)

/-- Sign helper for multiplying an infinity by a finite value. -/
def mulSign (pos neg : JSNum) (q : ℚ) : JSNum :=
  if 0 < q then pos else if q < 0 then neg else .nan

/-- JavaScript `*` on numbers. -/
def jsMul : JSNum → JSNum → JSNum
  | .nan, _ => .nan
  | _, .nan => .nan
  | .inf, .inf => .inf
  | .inf, .ninf => .ninf
  | .ninf, .inf => .ninf
  | .ninf, .ninf => .inf
  | .inf, .fin b => mulSign .inf .ninf b
  | .fin a, .inf => mulSign .inf .ninf a
  | .ninf, .fin b => mulSign .ninf .inf b
  | .fin a, .ninf => mulSign .ninf .inf a
  | .fin a, .fin b => .fin (a * b)

/-- JavaScript `/` on numbers (signed zero is not modelled; division of a
nonzero finite value by zero yields the infinity matching the numerator's sign). -/
def jsDiv : JSNum → JSNum → JSNum
  | .nan, _ => .nan
  | _, .nan => .nan
  | .inf, .inf => .nan
  | .inf, .ninf => .nan
  | .ninf, .inf => .nan
  | .ninf, .ninf => .nan
  | .inf, .fin b => if b < 0 then .ninf else .inf
  | .ninf, .fin b => if b < 0 then .inf else .ninf
  | .fin _, .inf => .fin 0
  | .fin _, .ninf => .fin 0
  | .fin a, .fin b =>
      if b = 0 then (if 0 < a then .inf else if a < 0 then .ninf else .nan)
      else .fin (a / b)

/-- JavaScript `Math.round`: half ties round toward positive infinity. -/
def jsRound : JSNum → JSNum
  | .nan => .nan
  | .inf => .inf
  | .ninf => .ninf
  | .fin q => .fin ((⌊q + 1/2⌋ : ℤ) : ℚ)

/-- The code's two-decimal rounding idiom `Math.round(x * 100) / 100`. -/
def jsRound2 (x : JSNum) : JSNum := jsDiv (jsRound (jsMul x (.fin 100))) (.fin 100)

/-- SameValueZero equality (used by JavaScript `Map` keys): NaN equals NaN. -/
def svzEq : JSNum → JSNum → Bool
  | .nan, .nan => true
  | .inf, .inf => true
  | .ninf, .ninf => true
  | .fin a, .fin b => a == b
  | _, _ => false

/-- JavaScript strict equality `===` on numbers: NaN is not equal to anything. -/
def jsStrictEq : JSNum → JSNum → Bool
  | .nan, _ => false
  | _, .nan => false
  | a, b => svzEq a b

/-- The four supported currency codes. -/
inductive Currency where
  | USD
  | ILS
  | GBP
  | EURO
deriving DecidableEq

/-- The string spelling of a currency code. -/
def Currency.code : Currency → String
  | .USD => "USD"
  | .ILS => "ILS"
  | .GBP => "GBP"
  | .EURO => "EURO"

/-- A JSON rates object: each of the four keys may be absent (`none`,
i.e. `undefined`) or hold a number. -/
structure RatesObj where
  USD : Option JSNum
  ILS : Option JSNum
  GBP : Option JSNum
  EURO : Option JSNum
deriving DecidableEq

/-- Property access `r[k]` for a currency key. -/
def RatesObj.lookup (r : RatesObj) : Currency → Option JSNum
  | .USD => r.USD
  | .ILS => r.ILS
  | .GBP => r.GBP
  | .EURO => r.EURO

/-- Property access `r[s]` for an arbitrary string key (any key other than the
four currency codes is absent). -/
def RatesObj.lookupStr (r : RatesObj) (s : String) : Option JSNum :=
  if s = "USD" then r.USD
  else if s = "ILS" then r.ILS
  else if s = "GBP" then r.GBP
  else if s = "EURO" then r.EURO
  else none

/-- Truthiness of a possibly-absent number (`undefined` is falsy). -/
def optTruthy : Option JSNum → Bool
  | none => false
  | some v => jsTruthy v

/-- `Number(x)` where `x` is a possibly-absent number: `Number(undefined)` is NaN. -/
def numField : Option JSNum → JSNum
  | none => .nan
  | some v => v

/-- JavaScript `s.toUpperCase()`: uppercase every character. -/
def jsToUpper (s : String) : String := ⟨s.data.map Char.toUpper⟩

/-- One step of rate-table validation, shared by both `normalizeRates`
implementations: `const v = Number(obj?.[k]); if (!Number.isFinite(v) || v <= 0)
throw new Error('Invalid rate for ' + k); out[k] = v;`. -/
def checkRate (r : RatesObj) (k : Currency) : Except String JSNum :=
  match numField (r.lookup k) with
  | .fin q => if q ≤ 0 then .error ("Invalid rate for " ++ k.code) else .ok (.fin q)
  | _ => .error ("Invalid rate for " ++ k.code)

/-- `normalizeRates` from `services/currency.ts` — iterates the keys in the
order `USD, ILS, GBP, EURO`, throwing on the first invalid one. -/
def normalizeRates (o : RatesObj) : Except String RatesObj := do
  let u ← checkRate o .USD
  let i ← checkRate o .ILS
  let g ← checkRate o .GBP
  let e ← checkRate o .EURO
  pure ⟨some u, some i, some g, some e⟩

/-- `normalizeRates` from `public/vanilla/idb.js` — same validation, key order
`USD, GBP, EURO, ILS`. -/
def vanillaNormalizeRates (o : RatesObj) : Except String RatesObj := do
  let u ← checkRate o .USD
  let g ← checkRate o .GBP
  let e ← checkRate o .EURO
  let i ← checkRate o .ILS
  pure ⟨some u, some i, some g, some e⟩

/-- A rates-object entry is valid when the key is present with a finite value
strictly greater than zero. -/
def validEntry (o : RatesObj) (k : Currency) : Prop :=
  ∃ q : ℚ, o.lookup k = some (.fin q) ∧ 0 < q

/-- `mapME f l` is JavaScript `l.map(f)` where `f` may throw: the first throw
aborts the whole map. -/
def mapME {α β : Type} (f : α → Except String β) : List α → Except String (List β)
  | [] => .ok []
  | a :: t => do
      let b ← f a
      let r ← mapME f t
      pure (b :: r)

/-- `foldlME f init l` is a JavaScript `for`-loop accumulating with `f`, where
the body may throw: the first throw aborts the whole loop. -/
def foldlME {α β : Type} (f : β → α → Except String β) : β → List α → Except String β
  | init, [] => .ok init
  | init, a :: t => do
      let b ← f init a
      foldlME f b t

/-- A calendar date `{year, month, day}` with all three fields present
(what the `today()` helpers and the vanilla `addCost` produce). -/
structure CDate where
  year : ℤ
  month : ℤ
  day : ℤ
deriving DecidableEq

/-- A stored record's `Date` field as it can actually occur in the store:
`importFromJson` copies `month` and `day` without checking them, so they may be
absent (`none`, i.e. `undefined`). -/
structure SDate where
  year : JSNum
  month : Option JSNum
  day : Option JSNum
deriving DecidableEq

/-- A well-formed stored date made from a calendar date. -/
def CDate.toS (c : CDate) : SDate :=
  ⟨.fin c.year, some (.fin c.month), some (.fin c.day)⟩

/-- A cost record as stored by the React services (interface `StoredCost`). -/
structure StoredCost where
  sum : JSNum
  currency : Currency
  category : String
  description : Option String
  Date : SDate
  dateISO : Option String
deriving DecidableEq

/-- A per-record line of the React report (UI cost item). -/
structure UiCost where
  sum : JSNum
  currency : Currency
  category : String
  description : String
  day : JSNum
deriving DecidableEq

/-- The React report's total block. -/
structure RTotal where
  currency : Currency
  total : JSNum
deriving DecidableEq

/-- The React report shape. -/
structure Report where
  year : ℤ
  month : ℤ
  costs : List UiCost
  total : RTotal
deriving DecidableEq

namespace CurrencySvc

/-- The well-known default rates URL constant of `services/currency.ts`. -/
def DEFAULT_RATES_URL : String :=
  "https://raw.githubusercontent.com/Dor11126/Cost-Manager-Front-End-exchange-rates/main/rates.json"

/-- The React currency service's state: the three localStorage slots and the
in-memory session rates (`currentRates`). -/
structure RState where
  lsUrl : Option String
  lsSource : Option String
  lsInline : Option RatesObj
  currentRates : Option RatesObj
deriving DecidableEq

/-- `getRatesUrl`: `localStorage.getItem(LS_URL_KEY) || DEFAULT_RATES_URL`. -/
def getRatesUrl (st : RState) : String :=
  match st.lsUrl with
  | some s => if s = "" then DEFAULT_RATES_URL else s
  | none => DEFAULT_RATES_URL

/-- `setRatesUrl`: persists `url || DEFAULT_RATES_URL` and switches the source
to `'url'`.  Note it does not touch `currentRates`. -/
def setRatesUrl (st : RState) (url : String) : RState :=
  { st with
    lsUrl := some (if url = "" then DEFAULT_RATES_URL else url),
    lsSource := some "url" }

/-- `setInlineRates`: persists the inline table, switches the source to
`'inline-json'` and applies the table to the session immediately.  (The
best-effort `applyRatesToIdb` call is a no-op: `services/idb.ts` exports no
`setRates`/`saveRates`.) -/
def setInlineRates (st : RState) (rates : RatesObj) : RState :=
  { st with
    lsInline := some rates,
    lsSource := some "inline-json",
    currentRates := some rates }

/-- `refreshRatesFromUrl`: fetches from `getRatesUrl()` and applies the result.
`fetched` is the outcome of that network fetch (which cannot be executed here);
the last component records the URLs fetched. -/
def refreshRatesFromUrl (st : RState) (fetched : Except String RatesObj) :
    Except String RatesObj × RState × List String :=
  match fetched with
  | .ok r => (.ok r, { st with currentRates := some r }, [getRatesUrl st])
  | .error e => (.error e, st, [getRatesUrl st])

/-- `convert(amount, from, to, rates?)` from `services/currency.ts`; `current`
is the module-level `currentRates` used when no `rates` argument is passed. -/
def convert (amount : JSNum) (src tgt : Currency) (rates current : Option RatesObj) :
    Except String JSNum :=
  match rates.or current with
  | none =>
      if src = tgt then .ok (jsOr amount (.fin 0))
      else .error "Rates are not loaded yet."
  | some r =>
      match r.lookup src, r.lookup tgt with
      | some rf, some rt =>
          if jsTruthy rf && jsTruthy rt then
            .ok (jsMul (jsDiv (jsOr amount (.fin 0)) rf) rt)
          else .error "Missing rate for conversion."
      | _, _ => .error "Missing rate for conversion."

end CurrencySvc

namespace IdbSvc

/-- `conv(v, from, to, r)` from `services/idb.ts`: returns `v` unchanged when no
rate table is loaded or the currencies coincide; otherwise converts, keeping
`v` if the conversion result is not finite.  A throw inside `convert`
propagates. -/
def conv (v : JSNum) (src tgt : Currency) (r : Option RatesObj) : Except String JSNum :=
  match r with
  | none => .ok v
  | some rr =>
      if src = tgt then .ok v
      else
        match CurrencySvc.convert v src tgt (some rr) none with
        | .error e => .error e
        | .ok x => .ok (if jsIsFinite x then x else v)

/-- `c.Date?.day ?? 1`: the day shown on a report line. -/
def dayOf (c : StoredCost) : JSNum :=
  match c.Date.day with
  | some d => d
  | none => .fin 1

/-- `toUiCost`: transforms a stored record into a UI cost line in the target
currency. -/
def toUiCost (c : StoredCost) (target : Currency) (r : Option RatesObj) :
    Except String UiCost := do
  let s ← conv (jsOr c.sum (.fin 0)) c.currency target r
  pure ⟨s, target, c.category, c.description.getD "", dayOf c⟩

/-- The `getReport`/`getMonthCategoryTotals` record filter:
`c.Date?.year === year && c.Date?.month === month`. -/
def matchYM (y m : ℤ) (c : StoredCost) : Bool :=
  jsStrictEq c.Date.year (.fin y) &&
    (match c.Date.month with
     | some mm => jsStrictEq mm (.fin m)
     | none => false)

/-- The records of a given year and month. -/
def filterYM (rows : List StoredCost) (y m : ℤ) : List StoredCost :=
  rows.filter (matchYM y m)

/-- The `getYearMonthTotals` record filter: `c.Date?.year === year`. -/
def matchY (y : ℤ) (c : StoredCost) : Bool :=
  jsStrictEq c.Date.year (.fin y)

/-- `getReport(year, month, currency)` from `services/idb.ts`, as a pure
function of the stored rows and the session rate table `r`. -/
def getReport (rows : List StoredCost) (r : Option RatesObj) (y m : ℤ)
    (currency : Currency) : Except String Report := do
  let costs ← mapME (fun c => toUiCost c currency r) (filterYM rows y m)
  let total := jsRound2 (costs.foldl (fun s c => jsAdd s (jsOr c.sum (.fin 0))) (.fin 0))
  pure ⟨y, m, costs, ⟨currency, total⟩⟩

/-- Lookup in a string-keyed JavaScript `Map` modelled as an association list. -/
def strLookup (m : List (String × JSNum)) (k : String) : Option JSNum :=
  (m.find? (fun p => p.1 == k)).map Prod.snd

/-- `Map.set` for a string-keyed map: updates in place or appends. -/
def strUpsert (m : List (String × JSNum)) (k : String) (v : JSNum) :
    List (String × JSNum) :=
  match m with
  | [] => [(k, v)]
  | p :: rest => if p.1 == k then (p.1, v) :: rest else p :: strUpsert rest k v

/-- The loop body of `getMonthCategoryTotals`:
`map.set(c.category, (map.get(c.category) || 0) + amount)`. -/
def catStep (currency : Currency) (r : Option RatesObj)
    (acc : List (String × JSNum)) (c : StoredCost) :
    Except String (List (String × JSNum)) := do
  let amount ← conv (jsOr c.sum (.fin 0)) c.currency currency r
  let prev := match strLookup acc c.category with
    | none => JSNum.fin 0
    | some p => jsOr p (.fin 0)
  pure (strUpsert acc c.category (jsAdd prev amount))

/-- `getMonthCategoryTotals(year, month, currency)` from `services/idb.ts`. -/
def getMonthCategoryTotals (rows : List StoredCost) (r : Option RatesObj)
    (y m : ℤ) (currency : Currency) : Except String (List (String × JSNum)) := do
  let mp ← foldlME (catStep currency r) [] (filterYM rows y m)
  pure mp

/-- SameValueZero equality on possibly-absent numbers (JavaScript `Map` key
equality, where keys here are the `Date.month` values). -/
def svzOptEq : Option JSNum → Option JSNum → Bool
  | none, none => true
  | some a, some b => svzEq a b
  | _, _ => false

/-- Lookup in a `Map` keyed by possibly-absent numbers. -/
def keyLookup (m : List (Option JSNum × JSNum)) (k : Option JSNum) : Option JSNum :=
  (m.find? (fun p => svzOptEq p.1 k)).map Prod.snd

/-- `Map.set` for a number-keyed map: updates in place or appends. -/
def keyUpsert (m : List (Option JSNum × JSNum)) (k : Option JSNum) (v : JSNum) :
    List (Option JSNum × JSNum) :=
  match m with
  | [] => [(k, v)]
  | p :: rest => if svzOptEq p.1 k then (p.1, v) :: rest else p :: keyUpsert rest k v

/-- `String(m).padStart(2, '0')` for the month labels. -/
def pad2 (n : ℕ) : String := if n < 10 then "0" ++ toString n else toString n

/-- The loop body of `getYearMonthTotals`:
`map.set(c.Date.month, (map.get(c.Date.month) || 0) + amount)`. -/
def ymStep (currency : Currency) (r : Option RatesObj)
    (acc : List (Option JSNum × JSNum)) (c : StoredCost) :
    Except String (List (Option JSNum × JSNum)) := do
  let amount ← conv (jsOr c.sum (.fin 0)) c.currency currency r
  let prev := match keyLookup acc c.Date.month with
    | none => JSNum.fin 0
    | some p => jsOr p (.fin 0)
  pure (keyUpsert acc c.Date.month (jsAdd prev amount))

/-- `getYearMonthTotals(year, currency)` from `services/idb.ts`: aggregates by
month and always emits 12 entries. -/
def getYearMonthTotals (rows : List StoredCost) (r : Option RatesObj) (y : ℤ)
    (currency : Currency) : Except String (List (String × JSNum)) := do
  let mp ← foldlME (ymStep currency r) [] (rows.filter (matchY y))
  pure ((List.range 12).map (fun i =>
    (pad2 (i + 1),
     jsOr (match keyLookup mp (some (.fin ((i : ℚ) + 1))) with
           | none => JSNum.fin 0
           | some v => v) (.fin 0))))

/-- The argument object of the React `addCost`. -/
structure AddInput where
  sum : JSNum
  currency : Currency
  category : String
  description : Option String
  dateISO : Option String
deriving DecidableEq

/-- `addCost` from `services/idb.ts`: builds the stored record.  There is no
validation; the stored sum is `Number(input.sum || 0)`.  `parsedISO` stands for
the `{year, month, day}` decomposition of `new Date(input.dateISO)` (date
parsing is not modelled), `now` for today's date. -/
def addCost (input : AddInput) (parsedISO : SDate) (now : CDate) : StoredCost :=
  { sum := jsOr input.sum (.fin 0),
    currency := input.currency,
    category := input.category,
    description := some (input.description.getD ""),
    Date := match input.dateISO with
      | some s => if s = "" then CDate.toS now else parsedISO
      | none => CDate.toS now,
    dateISO := input.dateISO }

/-- The effect of the React `addCost` on the store: the built record is always
added. -/
def addCostStore (store : List StoredCost) (input : AddInput) (parsedISO : SDate)
    (now : CDate) : List StoredCost :=
  store ++ [addCost input parsedISO now]

/-- A raw incoming `Date` object: each field may be absent. -/
structure RawDate where
  year : Option JSNum
  month : Option JSNum
  day : Option JSNum
deriving DecidableEq

/-- A raw incoming record of an import payload.  Field values of the wrong
shape are modelled as absent where the code only distinguishes
present/absent. -/
structure RawCost where
  sum : Option JSNum
  currency : Currency
  category : Option String
  description : Option String
  Date : Option RawDate
  dateISO : Option String
deriving DecidableEq

end IdbSvc

namespace IdbSvc

/-- The per-record body of the `importFromJson` loop: how one raw incoming
record is turned into the stored record.  The supplied `Date` is used whenever
it is an object whose `year` is a number; `month` and `day` are copied without
validation. -/
def importCostOf (raw : RawCost) (now : CDate) : StoredCost :=
  { sum := jsOr (numField raw.sum) (.fin 0),
    currency := raw.currency,
    category := raw.category.getD "",
    description := some (raw.description.getD ""),
    Date := match raw.Date with
      | some d =>
          match d.year with
          | some yv => ⟨yv, d.month, d.day⟩
          | none => CDate.toS now
      | none => CDate.toS now,
    dateISO := raw.dateISO }

/-- An `importFromJson` payload: either a bare array of records or an object
with optional `costs` and `rates` fields. -/
inductive ImportPayload where
  | arr (items : List RawCost)
  | obj (costs : Option (List RawCost)) (rates : Option RatesObj)
deriving DecidableEq

/-- The record array the import loop iterates:
`Array.isArray(json) ? json : Array.isArray(json?.costs) ? json.costs : []`. -/
def ImportPayload.items : ImportPayload → List RawCost
  | .arr l => l
  | .obj (some l) _ => l
  | .obj none _ => []

/-- `importFromJson` from `services/idb.ts`: appends every incoming record to
the store, then best-effort applies a `rates` block — a block failing
`normalizeRates` is ignored.  Returns the count of records added, the new
store, and the new currency-service state. -/
def importFromJson (p : ImportPayload) (now : CDate) (store : List StoredCost)
    (st : CurrencySvc.RState) : ℕ × List StoredCost × CurrencySvc.RState :=
  let arr := p.items
  let store2 := store ++ arr.map (fun raw => importCostOf raw now)
  let st2 := match p with
    | .arr _ => st
    | .obj _ none => st
    | .obj _ (some robj) =>
        match normalizeRates robj with
        | .ok norm => CurrencySvc.setInlineRates st norm
        | .error _ => st
  (arr.length, store2, st2)

end IdbSvc

namespace VanillaIdb

/-- The default rates URL constant of `public/vanilla/idb.js`. -/
def DEFAULT_RATES_URL : String :=
  "https://raw.githubusercontent.com/Dor11126/Cost-Manager-Front-End-exchange-rates/main/rates.json"

/-- The vanilla wrapper's in-memory session state: `_ratesUrl`, `_inlineRates`,
`_currentRates`. -/
structure VState where
  ratesUrl : String
  inlineRates : Option RatesObj
  currentRates : Option RatesObj
deriving DecidableEq

/-- Vanilla `setRatesUrl(url)`: stores `(url && String(url).trim()) ||
DEFAULT_RATES_URL` and clears `_currentRates`.  Note `_inlineRates` is left in
place. -/
def setRatesUrl (s : VState) (url : Option String) : VState :=
  { s with
    ratesUrl := (match url with
      | some u =>
          if u = "" then DEFAULT_RATES_URL
          else if u.trim = "" then DEFAULT_RATES_URL
          else u.trim
      | none => DEFAULT_RATES_URL),
    currentRates := none }

/-- Vanilla `setInlineRates(rates)`: validates, then sets both `_inlineRates`
and `_currentRates`; a validation throw leaves the state unchanged. -/
def setInlineRates (s : VState) (raw : RatesObj) : Except String VState :=
  match vanillaNormalizeRates raw with
  | .ok r => .ok { s with inlineRates := some r, currentRates := some r }
  | .error e => .error e

/-- Vanilla `ensureRates()`: the inline table wins; otherwise the cached table;
otherwise fetch from `_ratesUrl`.  `fetched` is the outcome of that fetch; the
last component lists the URLs actually fetched. -/
def ensureRates (s : VState) (fetched : Except String RatesObj) :
    Except String RatesObj × VState × List String :=
  match s.inlineRates with
  | some r => (.ok r, { s with currentRates := some r }, [])
  | none =>
      match s.currentRates with
      | some r => (.ok r, s, [])
      | none =>
          match fetched with
          | .ok r => (.ok r, { s with currentRates := some r }, [s.ratesUrl])
          | .error e => (.error e, s, [s.ratesUrl])

/-- Vanilla `refreshRatesFromUrl()`: clears `_currentRates`, then
`ensureRates()`. -/
def refreshRatesFromUrl (s : VState) (fetched : Except String RatesObj) :
    Except String RatesObj × VState × List String :=
  ensureRates { s with currentRates := none } fetched

/-- Vanilla `convert(amount, from, to, rates)`; `current` is the module-level
`_currentRates` used when no `rates` argument is passed.  Currencies are
arbitrary strings here. -/
def convert (amount : JSNum) (src tgt : String) (rates current : Option RatesObj) :
    Except String JSNum :=
  match rates.or current with
  | none => .error "Rates are not loaded."
  | some r =>
      match r.lookupStr src, r.lookupStr tgt with
      | some rf, some rt =>
          if jsTruthy rf && jsTruthy rt then
            .ok (jsMul (jsDiv (jsOr amount (.fin 0)) rf) rt)
          else .error "Missing rate for conversion."
      | _, _ => .error "Missing rate for conversion."

/-- The argument object of the vanilla `addCost` (any field may be absent, and
the misspelled `curency` field may be supplied). -/
structure VInput where
  sum : Option JSNum
  currency : Option String
  curency : Option String
  category : Option String
  description : Option String
deriving DecidableEq

/-- A record as stored by the vanilla `addCost` (currency is an arbitrary
uppercased string). -/
structure VRec where
  sum : JSNum
  currency : String
  category : String
  description : String
  Date : CDate
deriving DecidableEq

/-- Truthiness of a possibly-absent string (absent and `''` are falsy). -/
def strFieldTruthy : Option String → Bool
  | none => false
  | some s => s != ""

/-- Vanilla `addCost(cost)`: tolerates the `curency` typo, uppercases the
currency, validates only that the sum is finite and the currency nonempty, and
stamps today's date. -/
def addCost (c : VInput) (now : CDate) : Except String VRec :=
  let cur := if strFieldTruthy c.curency && !strFieldTruthy c.currency
             then c.curency else c.currency
  let sum := numField c.sum
  let currency := jsToUpper (cur.getD "")
  let category := c.category.getD ""
  let description := c.description.getD ""
  if !(jsIsFinite sum) then .error "sum must be a number"
  else if currency = "" then .error "currency required"
  else .ok ⟨sum, currency, category, description, now⟩

/-- The effect of the vanilla `addCost` on the store: the record is added only
when validation passes. -/
def addCostStore (store : List VRec) (c : VInput) (now : CDate) : List VRec :=
  match addCost c now with
  | .ok r => store ++ [r]
  | .error _ => store

/-- A per-record line of the vanilla report. -/
structure VRepCost where
  sum : JSNum
  currency : String
  category : String
  description : String
  day : ℤ
deriving DecidableEq

/-- The vanilla report's total block. -/
structure VRepTotal where
  currency : String
  total : JSNum
deriving DecidableEq

/-- The vanilla report shape. -/
structure VReport where
  year : ℤ
  month : ℤ
  costs : List VRepCost
  total : VRepTotal
deriving DecidableEq

/-- The vanilla report's target-currency resolution:
`String(currency || 'USD').toUpperCase()`. -/
def targetCurOf (currency : Option String) : String :=
  jsToUpper (match currency with
   | some s => if s = "" then "USD" else s
   | none => "USD")

/-- The running converted total of the vanilla `getReport` loop (the sum of the
per-record converted, unrounded amounts of the matching records). -/
def convertedTotal (rows : List VRec) (rates : RatesObj) (y m : ℤ)
    (currency : Option String) : Except String JSNum :=
  foldlME (fun acc it => do
      let cv ← convert it.sum it.currency (targetCurOf currency) (some rates) none
      pure (jsAdd acc cv)) (.fin 0)
    (rows.filter (fun it => it.Date.year == y && it.Date.month == m))

/-- Vanilla `getReport(year, month, currency)`, as a pure function of the
stored rows and the rate table produced by `ensureRates`. -/
def getReport (rows : List VRec) (rates : RatesObj) (y m : ℤ)
    (currency : Option String) : Except String VReport :=
  if y = 0 ∨ m = 0 then .error "year/month required"
  else do
    let filtered := rows.filter (fun it => it.Date.year == y && it.Date.month == m)
    let total ← convertedTotal rows rates y m currency
    pure ⟨y, m,
          filtered.map (fun it => ⟨it.sum, it.currency, it.category, it.description, it.Date.day⟩),
          ⟨targetCurOf currency, jsRound2 total⟩⟩

end VanillaIdb

/-- Modelled from the spec (§4.3): the rounding rule the spec prescribes for
the report total — round to two decimal places, half away from zero.  Stated
here only to compare with the code's `Math.round`-based rounding. -/
def roundHalfAwayFromZero2dp (q : ℚ) : ℚ :=
  if 0 ≤ q then ((⌊100 * q + 1/2⌋ : ℤ) : ℚ) / 100
  else -(((⌊100 * (-q) + 1/2⌋ : ℤ) : ℚ) / 100)

/-- The report `getReport` produces when no rate table has been acquired: every
record's amount is kept unconverted (identity conversion). -/
def IdbSvc.reportNoRates (rows : List StoredCost) (y m : ℤ) (currency : Currency) :
    Report :=
  let costs := (IdbSvc.filterYM rows y m).map (fun c =>
    (⟨jsOr c.sum (.fin 0), currency, c.category, c.description.getD "",
      IdbSvc.dayOf c⟩ : UiCost))
  ⟨y, m, costs,
   ⟨currency, jsRound2 (costs.foldl (fun s c => jsAdd s (jsOr c.sum (.fin 0))) (.fin 0))⟩⟩

/-- The per-record converted, unrounded amounts of the React report's matching
records (the quantity the report total is the round-once sum of). -/
def IdbSvc.convertedSums (rows : List StoredCost) (r : Option RatesObj) (y m : ℤ)
    (currency : Currency) : Except String (List JSNum) :=
  mapME (fun c => IdbSvc.conv (jsOr c.sum (.fin 0)) c.currency currency r)
    (IdbSvc.filterYM rows y m)

/-! Concrete fixtures used by counterexamples and witnesses. -/

/-- A valid rate table with every rate 1. -/
def tblOnes : RatesObj := ⟨some (.fin 1), some (.fin 1), some (.fin 1), some (.fin 1)⟩

/-- A valid rate table with every rate 2, distinct from `tblOnes`. -/
def tblAlt : RatesObj := ⟨some (.fin 2), some (.fin 2), some (.fin 2), some (.fin 2)⟩

/-- A rates object missing its `EURO` key (invalid). -/
def tblNoEuro : RatesObj := ⟨some (.fin 1), some (.fin (17/5)), some (.fin (9/5)), none⟩

/-- A rates object with all four keys absent (invalid). -/
def tblEmpty : RatesObj := ⟨none, none, none, none⟩

/-- A stored record: 200 USD, food, dated 2024-05-03. -/
def rUSD200 : StoredCost :=
  ⟨.fin 200, .USD, "food", some "", ⟨.fin 2024, some (.fin 5), some (.fin 3)⟩, none⟩

/-- A stored record with the negative sum -0.005 USD, dated 2024-05-03. -/
def rNeg : StoredCost :=
  ⟨.fin (-1/200), .USD, "a", some "", ⟨.fin 2024, some (.fin 5), some (.fin 3)⟩, none⟩

/-- A stored record with sum 1.005 USD, dated 2024-05-01. -/
def r1005 : StoredCost :=
  ⟨.fin (201/200), .USD, "a", some "", ⟨.fin 2024, some (.fin 5), some (.fin 1)⟩, none⟩

/-- A fixed calendar date used as "today". -/
def d0 : CDate := ⟨2024, 5, 3⟩

/-- A React `addCost` input whose sum is NaN. -/
def inpNaN : IdbSvc.AddInput := ⟨.nan, .USD, "food", none, none⟩

/-- A React `addCost` input whose sum is Infinity. -/
def inpInf : IdbSvc.AddInput := ⟨.inf, .USD, "food", none, none⟩

/-- A raw import record whose `Date` object has a numeric `year` but no
`month`/`day` fields. -/
def rawYearOnly : IdbSvc.RawCost :=
  ⟨some (.fin 10), .USD, some "c", none, some ⟨some (.fin 2024), none, none⟩, none⟩

@[simp]
theorem except_pure_eq {α : Type} (a : α) : (pure a : Except String α) = .ok a := rfl

@[simp]
theorem except_bind_ok {α β : Type} (b : α) (k : α → Except String β) :
    (Except.ok b >>= k) = k b := rfl

@[simp]
theorem except_bind_err {α β : Type} (e : String) (k : α → Except String β) :
    ((Except.error e : Except String α) >>= k) = .error e := rfl

theorem mapME_congr {α β : Type} (f g : α → Except String β) :
    ∀ (l : List α), (∀ a ∈ l, f a = g a) → mapME f l = mapME g l := by
  intro l
  induction l with
  | nil => intro _; rfl
  | cons a t ih =>
      intro h
      simp only [mapME]
      rw [h a (List.mem_cons_self a t), ih (fun x hx => h x (List.mem_cons_of_mem a hx))]

theorem mapME_error_of_mem {α β : Type} (f : α → Except String β) :
    ∀ (l : List α) (c : α), c ∈ l → (∃ e, f c = .error e) →
      ∃ e2, mapME f l = .error e2 := by
  intro l
  induction l with
  | nil => intro c hc _; cases hc
  | cons a t ih =>
      intro c hc hfe
      rcases hfe with ⟨e, hfe⟩
      rcases List.mem_cons.mp hc with hca | hct
      · subst hca
        exact ⟨e, by simp [mapME, hfe]⟩
      · cases ha : f a with
        | error e1 => exact ⟨e1, by simp [mapME, ha]⟩
        | ok b =>
            rcases ih c hct ⟨e, hfe⟩ with ⟨e2, h2⟩
            exact ⟨e2, by simp [mapME, ha, h2]⟩

theorem mapME_ok_map {α β : Type} (f : α → Except String β) (g : α → β) :
    ∀ (l : List α), (∀ a ∈ l, f a = .ok (g a)) → mapME f l = .ok (l.map g) := by
  intro l
  induction l with
  | nil => intro _; rfl
  | cons a t ih =>
      intro h
      have ha := h a (List.mem_cons_self a t)
      have ht := ih (fun x hx => h x (List.mem_cons_of_mem a hx))
      simp [mapME, ha, ht]

theorem mapME_mem_ok {α β : Type} (f : α → Except String β) :
    ∀ (l : List α) (out : List β), mapME f l = .ok out →
      ∀ b ∈ out, ∃ a ∈ l, f a = .ok b := by
  intro l
  induction l with
  | nil =>
      intro out h b hb
      simp [mapME] at h
      subst h
      cases hb
  | cons a t ih =>
      intro out h b hb
      cases ha : f a with
      | error e => simp [mapME, ha] at h
      | ok b0 =>
          cases ht : mapME f t with
          | error e => simp [mapME, ha, ht] at h
          | ok rest =>
              simp [mapME, ha, ht] at h
              subst h
              rcases List.mem_cons.mp hb with hb0 | hbr
              · exact ⟨a, List.mem_cons_self a t, by rw [ha, hb0]⟩
              · rcases ih rest ht b hbr with ⟨x, hx, hfx⟩
                exact ⟨x, List.mem_cons_of_mem a hx, hfx⟩

theorem except_bind_ok_iff {α β : Type} (x : Except String α)
    (k : α → Except String β) (r : β) :
    (x >>= k) = .ok r ↔ ∃ b, x = .ok b ∧ k b = .ok r := by
  cases x <;> simp

theorem mapME_proj {α β γ : Type} (h : α → Except String β) (mk : α → β → γ)
    (proj : γ → β) (hpm : ∀ a b, proj (mk a b) = b) :
    ∀ (l : List α) (out : List γ),
      mapME (fun a => do
        let b ← h a
        pure (mk a b)) l = .ok out →
      mapME h l = .ok (out.map proj) := by
  intro l
  induction l with
  | nil =>
      intro out hout
      simp [mapME] at hout
      subst hout
      rfl
  | cons a t ih =>
      intro out hout
      simp only [mapME] at hout
      rw [except_bind_ok_iff] at hout
      rcases hout with ⟨bg, habg, h2⟩
      rw [except_bind_ok_iff] at habg
      rcases habg with ⟨b0, hab0, hmk⟩
      have hbg : bg = mk a b0 := by
        have := hmk.symm
        simpa using this
      rw [except_bind_ok_iff] at h2
      rcases h2 with ⟨rest, hrest0, h3⟩
      have hout3 : bg :: rest = out := by
        simpa using h3
      have hrest := ih rest hrest0
      subst hout3
      subst hbg
      simp [mapME, hab0, hrest, hpm]

theorem foldlME_error_of_mem {α β : Type} (f : β → α → Except String β) :
    ∀ (l : List α) (c : α), c ∈ l → (∀ b, ∃ e, f b c = .error e) →
      ∀ init, ∃ e2, foldlME f init l = .error e2 := by
  intro l
  induction l with
  | nil => intro c hc _ _; cases hc
  | cons a t ih =>
      intro c hc hfe init
      rcases List.mem_cons.mp hc with hca | hct
      · subst hca
        rcases hfe init with ⟨e, he⟩
        exact ⟨e, by simp [foldlME, he]⟩
      · cases ha : f init a with
        | error e1 => exact ⟨e1, by simp [foldlME, ha]⟩
        | ok b =>
            rcases ih c hct hfe b with ⟨e2, h2⟩
            exact ⟨e2, by simp [foldlME, ha, h2]⟩

theorem foldlME_ok_of_all {α β : Type} (f : β → α → Except String β) :
    ∀ (l : List α), (∀ b a, a ∈ l → ∃ v, f b a = .ok v) →
      ∀ init, ∃ out, foldlME f init l = .ok out := by
  intro l
  induction l with
  | nil => intro _ init; exact ⟨init, rfl⟩
  | cons a t ih =>
      intro h init
      rcases h init a (List.mem_cons_self a t) with ⟨v, hv⟩
      rcases ih (fun b x hx => h b x (List.mem_cons_of_mem a hx)) v with ⟨out, hout⟩
      exact ⟨out, by simp [foldlME, hv, hout]⟩

instance exceptDecEq {ε α : Type} [DecidableEq ε] [DecidableEq α] :
    DecidableEq (Except ε α) := fun a b =>
  match a, b with
  | .ok x, .ok y =>
      if h : x = y then isTrue (by rw [h])
      else isFalse (fun hh => h (Except.ok.inj hh))
  | .error x, .error y =>
      if h : x = y then isTrue (by rw [h])
      else isFalse (fun hh => h (Except.error.inj hh))
  | .ok _, .error _ => isFalse (fun hh => Except.noConfusion hh)
  | .error _, .ok _ => isFalse (fun hh => Except.noConfusion hh)

theorem conv_none_ok (v : JSNum) (src tgt : Currency) :
    IdbSvc.conv v src tgt none = .ok v := rfl

theorem conv_missing_error (v : JSNum) (src tgt : Currency) (tbl : RatesObj)
    (hne : src ≠ tgt)
    (hmiss : optTruthy (tbl.lookup src) = false ∨ optTruthy (tbl.lookup tgt) = false) :
    ∃ e, IdbSvc.conv v src tgt (some tbl) = .error e := by
  simp only [IdbSvc.conv, CurrencySvc.convert, Option.or]
  rw [if_neg hne]
  cases hs : tbl.lookup src with
  | none => exact ⟨"Missing rate for conversion.", by simp [hs]⟩
  | some rf =>
      cases ht2 : tbl.lookup tgt with
      | none => exact ⟨"Missing rate for conversion.", by simp [hs, ht2]⟩
      | some rt =>
          have hff : (jsTruthy rf && jsTruthy rt) = false := by
            rcases hmiss with hm | hm
            · simp only [optTruthy, hs] at hm
              simp [hm]
            · simp only [optTruthy, ht2] at hm
              simp [hm]
          exact ⟨"Missing rate for conversion.", by simp [hs, ht2, hff]⟩

theorem toUiCost_of_conv_error (c : StoredCost) (target : Currency)
    (r : Option RatesObj) (e : String)
    (h : IdbSvc.conv (jsOr c.sum (.fin 0)) c.currency target r = .error e) :
    IdbSvc.toUiCost c target r = .error e := by
  unfold IdbSvc.toUiCost
  rw [h]
  rfl

theorem toUiCost_none_ok (c : StoredCost) (target : Currency) :
    IdbSvc.toUiCost c target none =
      .ok ⟨jsOr c.sum (.fin 0), target, c.category, c.description.getD "",
           IdbSvc.dayOf c⟩ := rfl

theorem getReport_none_eq (rows : List StoredCost) (y m : ℤ) (cur : Currency) :
    IdbSvc.getReport rows none y m cur = .ok (IdbSvc.reportNoRates rows y m cur) := by
  unfold IdbSvc.getReport IdbSvc.reportNoRates
  rw [mapME_ok_map (fun c => IdbSvc.toUiCost c cur none)
      (fun c => ⟨jsOr c.sum (.fin 0), cur, c.category, c.description.getD "",
        IdbSvc.dayOf c⟩)
      (IdbSvc.filterYM rows y m) (fun a _ => toUiCost_none_ok a cur)]
  rfl

theorem catStep_of_conv_error (cur : Currency) (r : Option RatesObj)
    (acc : List (String × JSNum)) (c : StoredCost) (e : String)
    (h : IdbSvc.conv (jsOr c.sum (.fin 0)) c.currency cur r = .error e) :
    IdbSvc.catStep cur r acc c = .error e := by
  unfold IdbSvc.catStep
  rw [h]
  rfl

theorem ymStep_of_conv_error (cur : Currency) (r : Option RatesObj)
    (acc : List (Option JSNum × JSNum)) (c : StoredCost) (e : String)
    (h : IdbSvc.conv (jsOr c.sum (.fin 0)) c.currency cur r = .error e) :
    IdbSvc.ymStep cur r acc c = .error e := by
  unfold IdbSvc.ymStep
  rw [h]
  rfl

/-- C1 (counterexample): with a record present but no rate table acquired, the
monthly report does not fail — it succeeds, keeping the record's 200 USD
unconverted even though EURO was requested.  This contradicts the claim that
an aggregate call fails with a conversion error whenever no rate table has been
acquired. -/
theorem aggregates_noRates_succeed_cex :
    IdbSvc.getReport [rUSD200] none 2024 5 Currency.EURO =
      .ok ⟨2024, 5, [⟨.fin 200, .EURO, "food", "", .fin 3⟩], ⟨.EURO, .fin 200⟩⟩ := by
  rw [getReport_none_eq]
  simp only [IdbSvc.reportNoRates, IdbSvc.filterYM, rUSD200, List.filter,
    IdbSvc.matchYM, jsStrictEq, svzEq]
  norm_num [jsOr, jsTruthy, jsRound2, jsMul, jsRound, jsDiv, jsAdd, IdbSvc.dayOf]

/-- C1 (amended): when a rate table has been acquired, any aggregate whose
filtered records contain one whose currency differs from the target and whose
rate (or the target's rate) is missing or falsy in the table fails with an
error; but when no rate table has been acquired, all three aggregates succeed,
the report keeping every record's amount unconverted. -/
theorem aggregates_failFast_or_identity :
    (∀ (rows : List StoredCost) (y m : ℤ) (cur : Currency),
        IdbSvc.getReport rows none y m cur = .ok (IdbSvc.reportNoRates rows y m cur))
    ∧ (∀ (rows : List StoredCost) (y m : ℤ) (cur : Currency),
        ∃ l, IdbSvc.getMonthCategoryTotals rows none y m cur = .ok l)
    ∧ (∀ (rows : List StoredCost) (y : ℤ) (cur : Currency),
        ∃ l, IdbSvc.getYearMonthTotals rows none y cur = .ok l)
    ∧ (∀ (rows : List StoredCost) (tbl : RatesObj) (y m : ℤ) (cur : Currency)
        (c : StoredCost), c ∈ IdbSvc.filterYM rows y m → c.currency ≠ cur →
        (optTruthy (tbl.lookup c.currency) = false ∨ optTruthy (tbl.lookup cur) = false) →
        ∃ e, IdbSvc.getReport rows (some tbl) y m cur = .error e)
    ∧ (∀ (rows : List StoredCost) (tbl : RatesObj) (y m : ℤ) (cur : Currency)
        (c : StoredCost), c ∈ IdbSvc.filterYM rows y m → c.currency ≠ cur →
        (optTruthy (tbl.lookup c.currency) = false ∨ optTruthy (tbl.lookup cur) = false) →
        ∃ e, IdbSvc.getMonthCategoryTotals rows (some tbl) y m cur = .error e)
    ∧ (∀ (rows : List StoredCost) (tbl : RatesObj) (y : ℤ) (cur : Currency)
        (c : StoredCost), c ∈ rows.filter (IdbSvc.matchY y) → c.currency ≠ cur →
        (optTruthy (tbl.lookup c.currency) = false ∨ optTruthy (tbl.lookup cur) = false) →
        ∃ e, IdbSvc.getYearMonthTotals rows (some tbl) y cur = .error e) := by
  refine ⟨getReport_none_eq, ?_, ?_, ?_, ?_, ?_⟩
  · intro rows y m cur
    rcases foldlME_ok_of_all (IdbSvc.catStep cur none) (IdbSvc.filterYM rows y m)
        (fun b a _ => ⟨_, rfl⟩) [] with ⟨mp, hmp⟩
    exact ⟨mp, by simp [IdbSvc.getMonthCategoryTotals, hmp]⟩
  · intro rows y cur
    rcases foldlME_ok_of_all (IdbSvc.ymStep cur none) (rows.filter (IdbSvc.matchY y))
        (fun b a _ => ⟨_, rfl⟩) [] with ⟨mp, hmp⟩
    refine ⟨(List.range 12).map (fun i =>
      (IdbSvc.pad2 (i + 1),
       jsOr (match IdbSvc.keyLookup mp (some (.fin ((i : ℚ) + 1))) with
             | none => JSNum.fin 0
             | some v => v) (.fin 0))), ?_⟩
    simp [IdbSvc.getYearMonthTotals, hmp]
  · intro rows tbl y m cur c hc hne hmiss
    rcases conv_missing_error (jsOr c.sum (.fin 0)) c.currency cur tbl hne hmiss with ⟨e, he⟩
    rcases mapME_error_of_mem (fun c => IdbSvc.toUiCost c cur (some tbl))
        (IdbSvc.filterYM rows y m) c hc
        ⟨e, toUiCost_of_conv_error c cur (some tbl) e he⟩ with ⟨e2, h2⟩
    exact ⟨e2, by simp [IdbSvc.getReport, h2]⟩
  · intro rows tbl y m cur c hc hne hmiss
    rcases conv_missing_error (jsOr c.sum (.fin 0)) c.currency cur tbl hne hmiss with ⟨e, he⟩
    rcases foldlME_error_of_mem (IdbSvc.catStep cur (some tbl))
        (IdbSvc.filterYM rows y m) c hc
        (fun b => ⟨e, catStep_of_conv_error cur (some tbl) b c e he⟩) [] with ⟨e2, h2⟩
    exact ⟨e2, by simp [IdbSvc.getMonthCategoryTotals, h2]⟩
  · intro rows tbl y cur c hc hne hmiss
    rcases conv_missing_error (jsOr c.sum (.fin 0)) c.currency cur tbl hne hmiss with ⟨e, he⟩
    rcases foldlME_error_of_mem (IdbSvc.ymStep cur (some tbl))
        (rows.filter (IdbSvc.matchY y)) c hc
        (fun b => ⟨e, ymStep_of_conv_error cur (some tbl) b c e he⟩) [] with ⟨e2, h2⟩
    exact ⟨e2, by simp [IdbSvc.getYearMonthTotals, h2]⟩

/-- C1 (witness): the amended fail-fast direction at a concrete input — with a
table missing the EURO rate, a report over a USD record requested in EURO
fails; and the identity direction at a concrete input. -/
theorem aggregates_failFast_witness :
    (∃ e, IdbSvc.getReport [rUSD200] (some tblNoEuro) 2024 5 Currency.EURO = .error e)
    ∧ IdbSvc.getReport [rUSD200] none 2024 5 Currency.USD =
        .ok (IdbSvc.reportNoRates [rUSD200] 2024 5 Currency.USD) :=
  ⟨aggregates_failFast_or_identity.2.2.2.1 [rUSD200] tblNoEuro 2024 5 Currency.EURO
      rUSD200 (by decide) (by decide) (Or.inr (by decide)),
   aggregates_failFast_or_identity.1 [rUSD200] 2024 5 Currency.USD⟩

/-- C2 (counterexample): the React `addCost` does not reject a non-finite sum.
A NaN sum is coerced to 0 and a record with that substituted sum is stored (the
store count grows); an Infinity sum is stored unchanged. -/
theorem react_addCost_nan_stored_cex :
    (IdbSvc.addCostStore [] inpNaN (CDate.toS d0) d0).length = 1
    ∧ (IdbSvc.addCost inpNaN (CDate.toS d0) d0).sum = .fin 0
    ∧ (IdbSvc.addCost inpInf (CDate.toS d0) d0).sum = .inf := ⟨rfl, rfl, rfl⟩

/-- C2 (amended): the vanilla `addCost` rejects a non-finite sum with a
validation error before persistence and leaves the store unchanged; the React
`addCost` performs no sum validation — the stored sum is
`Number(input.sum || 0)` (so NaN becomes 0, Infinity is kept) and the record is
always added. -/
theorem addCost_sum_validation_amended :
    (∀ (c : VanillaIdb.VInput) (now : CDate),
        jsIsFinite (numField c.sum) = false →
        VanillaIdb.addCost c now = .error "sum must be a number")
    ∧ (∀ (store : List VanillaIdb.VRec) (c : VanillaIdb.VInput) (now : CDate),
        jsIsFinite (numField c.sum) = false →
        VanillaIdb.addCostStore store c now = store)
    ∧ (∀ (input : IdbSvc.AddInput) (pd : SDate) (now : CDate),
        (IdbSvc.addCost input pd now).sum = jsOr input.sum (.fin 0))
    ∧ (∀ (store : List StoredCost) (input : IdbSvc.AddInput) (pd : SDate) (now : CDate),
        (IdbSvc.addCostStore store input pd now).length = store.length + 1) := by
  refine ⟨?_, ?_, ?_, ?_⟩
  · intro c now h
    simp [VanillaIdb.addCost, h]
  · intro store c now h
    simp [VanillaIdb.addCostStore, VanillaIdb.addCost, h]
  · intro input pd now
    rfl
  · intro store input pd now
    simp [IdbSvc.addCostStore]

/-- C2 (witness): the amended theorem at concrete inputs — a NaN-sum vanilla
add is rejected and leaves the empty store empty; the React add of a NaN sum
stores `Number(NaN || 0) = 0`. -/
theorem addCost_sum_validation_witness :
    VanillaIdb.addCost ⟨some .nan, some "USD", none, some "food", none⟩ d0 =
        .error "sum must be a number"
    ∧ VanillaIdb.addCostStore [] ⟨some .nan, some "USD", none, some "food", none⟩ d0 = []
    ∧ (IdbSvc.addCost inpNaN (CDate.toS d0) d0).sum = jsOr JSNum.nan (.fin 0) :=
  ⟨addCost_sum_validation_amended.1 ⟨some .nan, some "USD", none, some "food", none⟩ d0 rfl,
   addCost_sum_validation_amended.2.1 [] ⟨some .nan, some "USD", none, some "food", none⟩ d0 rfl,
   addCost_sum_validation_amended.2.2.1 inpNaN (CDate.toS d0) d0⟩

theorem jsOr_zero_ne_nan (x : JSNum) : jsOr x (.fin 0) ≠ .nan := by
  cases x with
  | nan => simp [jsOr, jsTruthy]
  | inf => simp [jsOr, jsTruthy]
  | ninf => simp [jsOr, jsTruthy]
  | fin q => by_cases hq : q = 0 <;> simp [jsOr, jsTruthy, hq]

theorem jsOr_zero_of_not_nan (x : JSNum) (h : x ≠ .nan) : jsOr x (.fin 0) = x := by
  cases x with
  | nan => exact absurd rfl h
  | inf => rfl
  | ninf => rfl
  | fin q =>
      by_cases hq : q = 0 <;> simp [jsOr, jsTruthy, hq]

theorem conv_ok_not_nan (v : JSNum) (src tgt : Currency) (r : Option RatesObj)
    (x : JSNum) (hv : v ≠ .nan) (h : IdbSvc.conv v src tgt r = .ok x) : x ≠ .nan := by
  cases r with
  | none =>
      have : v = x := by simpa [IdbSvc.conv] using h
      rw [← this]
      exact hv
  | some rr =>
      simp only [IdbSvc.conv] at h
      by_cases hst : src = tgt
      · rw [if_pos hst] at h
        have : v = x := by simpa using h
        rw [← this]
        exact hv
      · rw [if_neg hst] at h
        cases hcv : CurrencySvc.convert v src tgt (some rr) none with
        | error e => rw [hcv] at h; simp at h
        | ok w =>
            rw [hcv] at h
            have hx : (if jsIsFinite w then w else v) = x := by simpa using h
            by_cases hw : jsIsFinite w = true
            · rw [if_pos hw] at hx
              cases w with
              | fin q => rw [← hx]; simp
              | nan => simp [jsIsFinite] at hw
              | inf => simp [jsIsFinite] at hw
              | ninf => simp [jsIsFinite] at hw
            · rw [if_neg (by simpa using hw)] at hx
              rw [← hx]
              exact hv

theorem foldl_jsAdd_map :
    ∀ (costs : List UiCost), (∀ c ∈ costs, jsOr c.sum (.fin 0) = c.sum) →
      ∀ z, costs.foldl (fun s c => jsAdd s (jsOr c.sum (.fin 0))) z
        = (costs.map UiCost.sum).foldl jsAdd z := by
  intro costs
  induction costs with
  | nil => intro _ z; rfl
  | cons a t ih =>
      intro h z
      simp only [List.foldl_cons, List.map_cons]
      rw [h a (List.mem_cons_self a t)]
      exact ih (fun c hc => h c (List.mem_cons_of_mem a hc)) _

theorem jsRound2_fin (q : ℚ) :
    jsRound2 (.fin q) = .fin (((⌊q * 100 + 1/2⌋ : ℤ) : ℚ) / 100) := by
  simp only [jsRound2, jsMul, jsRound, jsDiv]
  norm_num

theorem jsRound2_nonneg (q : ℚ) (hq : 0 ≤ q) :
    jsRound2 (.fin q) = .fin (roundHalfAwayFromZero2dp q) := by
  rw [jsRound2_fin, roundHalfAwayFromZero2dp, if_pos hq, mul_comm]

theorem getReport_total_eq (rows : List StoredCost) (r : Option RatesObj) (y m : ℤ)
    (cur : Currency) (rep : Report)
    (h : IdbSvc.getReport rows r y m cur = .ok rep) :
    ∃ sums, IdbSvc.convertedSums rows r y m cur = .ok sums
      ∧ rep.costs.map UiCost.sum = sums
      ∧ rep.total.total = jsRound2 (sums.foldl jsAdd (.fin 0)) := by
  simp only [IdbSvc.getReport] at h
  rw [except_bind_ok_iff] at h
  rcases h with ⟨costs, hmap, hp⟩
  have hrep : rep = ⟨y, m, costs,
      ⟨cur, jsRound2 (costs.foldl (fun s c => jsAdd s (jsOr c.sum (.fin 0))) (.fin 0))⟩⟩ := by
    have := hp
    simp at this
    exact this.symm
  have hmap2 : mapME (fun c => do
      let b ← IdbSvc.conv (jsOr c.sum (.fin 0)) c.currency cur r
      pure ((⟨b, cur, c.category, c.description.getD "", IdbSvc.dayOf c⟩ : UiCost)))
      (IdbSvc.filterYM rows y m) = .ok costs := by
    rw [mapME_congr (fun (c : StoredCost) => do
        let b ← IdbSvc.conv (jsOr c.sum (.fin 0)) c.currency cur r
        pure ((⟨b, cur, c.category, c.description.getD "", IdbSvc.dayOf c⟩ : UiCost)))
      (fun c => IdbSvc.toUiCost c cur r) (IdbSvc.filterYM rows y m) (fun a _ => rfl)]
    exact hmap
  have hsums : IdbSvc.convertedSums rows r y m cur = .ok (costs.map UiCost.sum) := by
    have hproj := mapME_proj (fun c => IdbSvc.conv (jsOr c.sum (.fin 0)) c.currency cur r)
      (fun c s => (⟨s, cur, c.category, c.description.getD "",
         IdbSvc.dayOf c⟩ : UiCost))
      UiCost.sum (fun a b => rfl) (IdbSvc.filterYM rows y m) costs hmap2
    simpa [IdbSvc.convertedSums] using hproj
  have hnn : ∀ c ∈ costs, jsOr c.sum (.fin 0) = c.sum := by
    intro c hc
    rcases mapME_mem_ok _ _ costs hmap c hc with ⟨a, ha, hok⟩
    simp only [IdbSvc.toUiCost] at hok
    rw [except_bind_ok_iff] at hok
    rcases hok with ⟨s, hs, hpure⟩
    have hc2 : c = ⟨s, cur, a.category, a.description.getD "",
        IdbSvc.dayOf a⟩ := by
      have := hpure
      simp at this
      exact this.symm
    have hsnn : s ≠ .nan :=
      conv_ok_not_nan _ _ _ _ _ (jsOr_zero_ne_nan a.sum) hs
    rw [hc2]
    exact jsOr_zero_of_not_nan s hsnn
  refine ⟨costs.map UiCost.sum, hsums, by rw [hrep], ?_⟩
  rw [hrep]
  simp only
  rw [foldl_jsAdd_map costs hnn]

theorem vanilla_getReport_total (rows : List VanillaIdb.VRec) (rates : RatesObj)
    (y m : ℤ) (currency : Option String) (rep : VanillaIdb.VReport)
    (h : VanillaIdb.getReport rows rates y m currency = .ok rep) :
    ∃ s, VanillaIdb.convertedTotal rows rates y m currency = .ok s
      ∧ rep.total.total = jsRound2 s := by
  unfold VanillaIdb.getReport at h
  by_cases hym : y = 0 ∨ m = 0
  · rw [if_pos hym] at h
    simp at h
  · rw [if_neg hym] at h
    rw [except_bind_ok_iff] at h
    rcases h with ⟨s, hs, hp⟩
    refine ⟨s, hs, ?_⟩
    have hrep : rep = ⟨y, m,
        (rows.filter (fun it => it.Date.year == y && it.Date.month == m)).map
          (fun it => ⟨it.sum, it.currency, it.category, it.description, it.Date.day⟩),
        ⟨VanillaIdb.targetCurOf currency, jsRound2 s⟩⟩ := by
      have := hp
      simp at this
      exact this.symm
    rw [hrep]

/-- C3 (counterexample): a single stored record of -0.005 USD, reported in USD
with a valid rate table, yields the total 0 (JavaScript `Math.round` rounds the
half tie -0.5 up, toward positive infinity), while half-away-from-zero rounding
of the converted sum -0.005 gives -0.01.  So the total is not computed with
half-away-from-zero rounding. -/
theorem report_rounding_halfAway_cex :
    (IdbSvc.getReport [rNeg] (some tblOnes) 2024 5 Currency.USD).map
        (fun rep => rep.total.total) = .ok (.fin 0)
    ∧ roundHalfAwayFromZero2dp (-1/200) = -1/100
    ∧ (0 : ℚ) ≠ -1/100 := by
  refine ⟨?_, ?_, by norm_num⟩
  · simp only [IdbSvc.getReport, IdbSvc.filterYM, rNeg, List.filter, IdbSvc.matchYM,
      jsStrictEq, svzEq, mapME, IdbSvc.toUiCost, IdbSvc.conv, IdbSvc.dayOf]
    norm_num [jsOr, jsTruthy, jsRound2, jsMul, jsRound, jsDiv, jsAdd, Except.map]
  · rw [roundHalfAwayFromZero2dp, if_neg (by norm_num)]
    norm_num

/-- C3 (amended): both reports compute their grand total as the sum of the
converted, unrounded per-record amounts, rounded exactly once at the end to two
decimal places using JavaScript `Math.round` semantics — half ties toward
positive infinity, which agrees with half-away-from-zero for non-negative
totals (but not for negative ones) — and this differs from summing the
individually rounded per-record amounts (three records of 1.005 total 3.02, not
3.03). -/
theorem report_total_rounding_amended :
    (∀ (rows : List StoredCost) (r : Option RatesObj) (y m : ℤ) (cur : Currency)
        (rep : Report), IdbSvc.getReport rows r y m cur = .ok rep →
        ∃ sums, IdbSvc.convertedSums rows r y m cur = .ok sums
          ∧ rep.costs.map UiCost.sum = sums
          ∧ rep.total.total = jsRound2 (sums.foldl jsAdd (.fin 0)))
    ∧ (∀ (rows : List VanillaIdb.VRec) (rates : RatesObj) (y m : ℤ)
        (currency : Option String) (rep : VanillaIdb.VReport),
        VanillaIdb.getReport rows rates y m currency = .ok rep →
        ∃ s, VanillaIdb.convertedTotal rows rates y m currency = .ok s
          ∧ rep.total.total = jsRound2 s)
    ∧ (∀ q : ℚ, 0 ≤ q → jsRound2 (.fin q) = .fin (roundHalfAwayFromZero2dp q))
    ∧ ((IdbSvc.getReport [r1005, r1005, r1005] (some tblOnes) 2024 5 Currency.USD).map
          (fun rep => rep.total.total) = .ok (.fin (302/100))
        ∧ (IdbSvc.convertedSums [r1005, r1005, r1005] (some tblOnes) 2024 5 Currency.USD).map
          (fun l => (l.map jsRound2).foldl jsAdd (.fin 0)) = .ok (.fin (303/100))
        ∧ (302/100 : ℚ) ≠ 303/100) := by
  refine ⟨getReport_total_eq, vanilla_getReport_total, jsRound2_nonneg, ?_, ?_, by norm_num⟩
  · simp only [IdbSvc.getReport, IdbSvc.filterYM, r1005, List.filter, IdbSvc.matchYM,
      jsStrictEq, svzEq, mapME, IdbSvc.toUiCost, IdbSvc.conv, IdbSvc.dayOf]
    norm_num [jsOr, jsTruthy, jsRound2, jsMul, jsRound, jsDiv, jsAdd, Except.map]
  · simp only [IdbSvc.convertedSums, IdbSvc.filterYM, r1005, List.filter, IdbSvc.matchYM,
      jsStrictEq, svzEq, mapME, IdbSvc.conv]
    norm_num [jsOr, jsTruthy, jsRound2, jsMul, jsRound, jsDiv, jsAdd, Except.map]

/-- C3 (witness): the amended round-once property applied at a concrete report
(one 200 USD record reported in USD), and the rounding agreement at the
concrete non-negative total 1. -/
theorem report_total_rounding_witness :
    (∃ sums, IdbSvc.convertedSums [rUSD200] (some tblOnes) 2024 5 Currency.USD = .ok sums
      ∧ ((⟨2024, 5, [⟨.fin 200, .USD, "food", "", .fin 3⟩],
            ⟨.USD, .fin 200⟩⟩ : Report)).costs.map UiCost.sum = sums
      ∧ ((⟨2024, 5, [⟨.fin 200, .USD, "food", "", .fin 3⟩],
            ⟨.USD, .fin 200⟩⟩ : Report)).total.total
          = jsRound2 (sums.foldl jsAdd (.fin 0)))
    ∧ jsRound2 (.fin 1) = .fin (roundHalfAwayFromZero2dp 1) :=
  ⟨report_total_rounding_amended.1 [rUSD200] (some tblOnes) 2024 5 Currency.USD
      ⟨2024, 5, [⟨.fin 200, .USD, "food", "", .fin 3⟩], ⟨.USD, .fin 200⟩⟩ (by
      simp only [IdbSvc.getReport, IdbSvc.filterYM, rUSD200, List.filter, IdbSvc.matchYM,
        jsStrictEq, svzEq, mapME, IdbSvc.toUiCost, IdbSvc.conv, IdbSvc.dayOf]
      norm_num [jsOr, jsTruthy, jsRound2, jsMul, jsRound, jsDiv, jsAdd]),
   report_total_rounding_amended.2.2.1 1 (by norm_num)⟩

/-- C4 (counterexample): with an inline table set, the vanilla
`refreshRatesFromUrl` issues no fetch (the fetched-URL trace is empty) and
returns the inline table — not the table the configured URL would have served
(here `tblAlt`).  This contradicts the claim that the refresh fetches from the
URL even when an inline rate table is set. -/
theorem vanilla_refresh_inline_no_fetch_cex :
    VanillaIdb.refreshRatesFromUrl ⟨VanillaIdb.DEFAULT_RATES_URL, some tblOnes, none⟩
        (.ok tblAlt) =
      (.ok tblOnes, ⟨VanillaIdb.DEFAULT_RATES_URL, some tblOnes, some tblOnes⟩, []) := rfl

/-- C4 (amended): the React `refreshRatesFromUrl` always fetches from the
currently configured URL regardless of source mode, replacing the session
cache on success; the vanilla `refreshRatesFromUrl` clears the cached table and
re-ensures rates, which re-fetches exactly when no inline table is set — with
an inline table set it returns that table without any fetch. -/
theorem refreshRates_behavior_amended :
    (∀ (st : CurrencySvc.RState) (f : Except String RatesObj),
        (CurrencySvc.refreshRatesFromUrl st f).2.2 = [CurrencySvc.getRatesUrl st]
        ∧ (∀ r, f = .ok r →
            (CurrencySvc.refreshRatesFromUrl st f).1 = .ok r
            ∧ (CurrencySvc.refreshRatesFromUrl st f).2.1.currentRates = some r))
    ∧ (∀ (s : VanillaIdb.VState) (f : Except String RatesObj), s.inlineRates = none →
        (VanillaIdb.refreshRatesFromUrl s f).2.2 = [s.ratesUrl])
    ∧ (∀ (s : VanillaIdb.VState) (f : Except String RatesObj) (r : RatesObj),
        s.inlineRates = some r →
        VanillaIdb.refreshRatesFromUrl s f = (.ok r, { s with currentRates := some r }, [])) := by
  refine ⟨?_, ?_, ?_⟩
  · intro st f
    refine ⟨?_, ?_⟩
    · cases f <;> rfl
    · intro r hf
      subst hf
      exact ⟨rfl, rfl⟩
  · intro s f h
    cases f <;>
      simp [VanillaIdb.refreshRatesFromUrl, VanillaIdb.ensureRates, h]
  · intro s f r h
    simp [VanillaIdb.refreshRatesFromUrl, VanillaIdb.ensureRates, h]

/-- C4 (witness): the amended behavior at concrete states — React refresh
fetches the default URL; vanilla refresh with no inline table fetches its URL;
vanilla refresh with the inline table `tblOnes` returns it without fetching. -/
theorem refreshRates_behavior_witness :
    (CurrencySvc.refreshRatesFromUrl ⟨none, none, none, none⟩ (.ok tblOnes)).2.2
        = [CurrencySvc.getRatesUrl ⟨none, none, none, none⟩]
    ∧ (VanillaIdb.refreshRatesFromUrl ⟨"u", none, some tblAlt⟩ (.ok tblOnes)).2.2 = ["u"]
    ∧ VanillaIdb.refreshRatesFromUrl ⟨"u", some tblOnes, none⟩ (.ok tblAlt) =
        (.ok tblOnes, ⟨"u", some tblOnes, some tblOnes⟩, []) :=
  ⟨(refreshRates_behavior_amended.1 ⟨none, none, none, none⟩ (.ok tblOnes)).1,
   refreshRates_behavior_amended.2.1 ⟨"u", none, some tblAlt⟩ (.ok tblOnes) rfl,
   refreshRates_behavior_amended.2.2 ⟨"u", some tblOnes, none⟩ (.ok tblAlt) tblOnes rfl⟩

/-- C5 (counterexample): the React `setRatesUrl` leaves the in-memory session
rate cache untouched — after switching to URL mode the previously cached table
is still the active session table, so the next rate-needing operation is not
forced to fetch. -/
theorem react_setRatesUrl_keeps_cache_cex :
    (CurrencySvc.setRatesUrl ⟨none, none, none, some tblOnes⟩
        "https://example.org/r.json").currentRates = some tblOnes := rfl

/-- C5 (amended): the vanilla `setRatesUrl` clears the cached session table
and leaves the inline slot in place, so the next `ensureRates` fetches exactly
when no inline table is set (with an inline table set, no fetch happens); the
React `setRatesUrl` persists the URL and switches the source mode to `'url'`
but does not clear the in-memory session cache. -/
theorem setRatesUrl_cache_amended :
    (∀ (s : VanillaIdb.VState) (url : Option String),
        (VanillaIdb.setRatesUrl s url).currentRates = none
        ∧ (VanillaIdb.setRatesUrl s url).inlineRates = s.inlineRates)
    ∧ (∀ (s : VanillaIdb.VState) (url : Option String) (f : Except String RatesObj),
        s.inlineRates = none →
        (VanillaIdb.ensureRates (VanillaIdb.setRatesUrl s url) f).2.2
          = [(VanillaIdb.setRatesUrl s url).ratesUrl])
    ∧ (∀ (s : VanillaIdb.VState) (url : Option String) (f : Except String RatesObj)
        (r : RatesObj), s.inlineRates = some r →
        (VanillaIdb.ensureRates (VanillaIdb.setRatesUrl s url) f).2.2 = [])
    ∧ (∀ (st : CurrencySvc.RState) (url : String),
        (CurrencySvc.setRatesUrl st url).currentRates = st.currentRates
        ∧ (CurrencySvc.setRatesUrl st url).lsSource = some "url") := by
  refine ⟨?_, ?_, ?_, ?_⟩
  · intro s url
    exact ⟨rfl, rfl⟩
  · intro s url f h
    cases f <;> simp [VanillaIdb.ensureRates, VanillaIdb.setRatesUrl, h]
  · intro s url f r h
    simp [VanillaIdb.ensureRates, VanillaIdb.setRatesUrl, h]
  · intro st url
    exact ⟨rfl, rfl⟩

/-- C5 (witness): the amended behavior at concrete states. -/
theorem setRatesUrl_cache_witness :
    (VanillaIdb.setRatesUrl ⟨"u", none, some tblOnes⟩ (some "v")).currentRates = none
    ∧ (VanillaIdb.ensureRates (VanillaIdb.setRatesUrl ⟨"u", none, some tblOnes⟩ (some "v"))
        (.ok tblAlt)).2.2 = [(VanillaIdb.setRatesUrl ⟨"u", none, some tblOnes⟩ (some "v")).ratesUrl]
    ∧ (VanillaIdb.ensureRates (VanillaIdb.setRatesUrl ⟨"u", some tblOnes, none⟩ (some "v"))
        (.ok tblAlt)).2.2 = []
    ∧ (CurrencySvc.setRatesUrl ⟨none, none, none, some tblOnes⟩ "v").currentRates
        = (⟨none, none, none, some tblOnes⟩ : CurrencySvc.RState).currentRates :=
  ⟨(setRatesUrl_cache_amended.1 ⟨"u", none, some tblOnes⟩ (some "v")).1,
   setRatesUrl_cache_amended.2.1 ⟨"u", none, some tblOnes⟩ (some "v") (.ok tblAlt) rfl,
   setRatesUrl_cache_amended.2.2.1 ⟨"u", some tblOnes, none⟩ (some "v") (.ok tblAlt) tblOnes rfl,
   (setRatesUrl_cache_amended.2.2.2 ⟨none, none, none, some tblOnes⟩ "v").1⟩

/-- C6 (counterexample): an imported record whose `Date` object has a numeric
`year` but no `month`/`day` fields is stored with that year and undefined
month and day — a malformed stored date — instead of being stamped with the
current date as the claim requires. -/
theorem import_date_year_only_check_cex :
    (IdbSvc.importCostOf rawYearOnly d0).Date = ⟨.fin 2024, none, none⟩
    ∧ (IdbSvc.importCostOf rawYearOnly d0).Date ≠ CDate.toS d0
    ∧ (IdbSvc.importCostOf rawYearOnly d0).Date.month = none := by
  refine ⟨rfl, ?_, rfl⟩
  intro h
  simp [IdbSvc.importCostOf, rawYearOnly, CDate.toS, d0] at h

/-- C6 (amended): the stored record uses the supplied date exactly when
`raw.Date` is an object whose `year` field is a number, in which case `month`
and `day` are copied without validation (even when absent or malformed); the
current date is stamped exactly when `Date` is absent or its `year` is not a
number. -/
theorem import_date_stamping_amended :
    ∀ (raw : IdbSvc.RawCost) (now : CDate),
      (raw.Date = none → (IdbSvc.importCostOf raw now).Date = CDate.toS now)
      ∧ (∀ d, raw.Date = some d → d.year = none →
          (IdbSvc.importCostOf raw now).Date = CDate.toS now)
      ∧ (∀ d yv, raw.Date = some d → d.year = some yv →
          (IdbSvc.importCostOf raw now).Date = ⟨yv, d.month, d.day⟩) := by
  intro raw now
  refine ⟨?_, ?_, ?_⟩
  · intro h
    simp [IdbSvc.importCostOf, h]
  · intro d hd hy
    simp [IdbSvc.importCostOf, hd, hy]
  · intro d yv hd hy
    simp [IdbSvc.importCostOf, hd, hy]

/-- C6 (witness): the amended rule applied to the concrete year-only record —
its malformed date is stored as-is — and to a record with no `Date` at all —
the current date is stamped. -/
theorem import_date_stamping_witness :
    (IdbSvc.importCostOf rawYearOnly d0).Date = ⟨.fin 2024, none, none⟩
    ∧ (IdbSvc.importCostOf ⟨some (.fin 10), .USD, some "c", none, none, none⟩ d0).Date
        = CDate.toS d0 :=
  ⟨(import_date_stamping_amended rawYearOnly d0).2.2 ⟨some (.fin 2024), none, none⟩
      (.fin 2024) rfl rfl,
   (import_date_stamping_amended ⟨some (.fin 10), .USD, some "c", none, none, none⟩ d0).1 rfl⟩

/-- C7: importing a payload whose rates block fails `normalizeRates` still
appends every supplied record to the store and returns their count, and the
whole currency-service state — active table, source mode, persisted inline
table — is left unchanged (the invalid block is never partially applied). -/
theorem import_invalid_rates_best_effort
    (costs : Option (List IdbSvc.RawCost)) (robj : RatesObj) (e : String)
    (he : normalizeRates robj = .error e) (now : CDate)
    (store : List StoredCost) (st : CurrencySvc.RState) :
    IdbSvc.importFromJson (.obj costs (some robj)) now store st =
      ((IdbSvc.ImportPayload.obj costs (some robj)).items.length,
       store ++ (IdbSvc.ImportPayload.obj costs (some robj)).items.map
         (fun raw => IdbSvc.importCostOf raw now),
       st) := by
  simp [IdbSvc.importFromJson, he]

/-- C7 (witness): importing one record together with an empty (hence invalid)
rates object adds the record and leaves the state untouched. -/
theorem import_invalid_rates_best_effort_witness :
    IdbSvc.importFromJson (.obj (some [rawYearOnly]) (some tblEmpty)) d0 []
        ⟨none, none, none, some tblOnes⟩ =
      (1, [IdbSvc.importCostOf rawYearOnly d0], ⟨none, none, none, some tblOnes⟩) :=
  import_invalid_rates_best_effort (some [rawYearOnly]) tblEmpty
    ("Invalid rate for " ++ Currency.USD.code) rfl d0 [] ⟨none, none, none, some tblOnes⟩

theorem checkRate_ok_iff (o : RatesObj) (k : Currency) :
    (∃ v, checkRate o k = .ok v) ↔ validEntry o k := by
  unfold checkRate validEntry
  cases hl : o.lookup k with
  | none => simp [numField]
  | some v =>
      cases v with
      | nan => simp [numField]
      | inf => simp [numField]
      | ninf => simp [numField]
      | fin q =>
          simp only [numField]
          by_cases hq : q ≤ 0
          · rw [if_pos hq]
            simp only [Option.some.injEq, JSNum.fin.injEq]
            constructor
            · rintro ⟨v, hv⟩
              exact absurd hv (by simp)
            · rintro ⟨q2, rfl, hpos⟩
              exact absurd hpos (not_lt.mpr hq)
          · rw [if_neg hq]
            simp only [Option.some.injEq, JSNum.fin.injEq]
            constructor
            · intro _
              exact ⟨q, rfl, lt_of_not_le hq⟩
            · intro _
              exact ⟨.fin q, rfl⟩

theorem checkRate_error_name (o : RatesObj) (k : Currency) (e : String)
    (h : checkRate o k = .error e) :
    e = "Invalid rate for " ++ k.code ∧ ¬ validEntry o k := by
  constructor
  · unfold checkRate at h
    cases hl : o.lookup k with
    | none =>
        rw [hl] at h
        simp only [numField] at h
        have := Except.error.inj h
        exact this.symm
    | some v =>
        rw [hl] at h
        cases v with
        | nan => exact (Except.error.inj h).symm
        | inf => exact (Except.error.inj h).symm
        | ninf => exact (Except.error.inj h).symm
        | fin q =>
            simp only [numField] at h
            split at h
            · exact (Except.error.inj h).symm
            · simp at h
  · intro hval
    rcases (checkRate_ok_iff o k).mpr hval with ⟨v, hv⟩
    rw [hv] at h
    simp at h

theorem checkRate_ok_val (o : RatesObj) (k : Currency) (v : JSNum)
    (h : checkRate o k = .ok v) : o.lookup k = some v := by
  unfold checkRate at h
  cases hl : o.lookup k with
  | none =>
      rw [hl] at h
      simp [numField] at h
  | some w =>
      rw [hl] at h
      cases w with
      | nan => simp [numField] at h
      | inf => simp [numField] at h
      | ninf => simp [numField] at h
      | fin q =>
          simp only [numField] at h
          split at h
          · simp at h
          · have : JSNum.fin q = v := by simpa using h
            rw [this]

theorem normalizeRates_ok_iff (o : RatesObj) :
    (∃ t, normalizeRates o = .ok t) ↔ ∀ k : Currency, ∃ v, checkRate o k = .ok v := by
  constructor
  · rintro ⟨t, ht⟩
    simp only [normalizeRates] at ht
    rw [except_bind_ok_iff] at ht
    rcases ht with ⟨u, hu, ht⟩
    rw [except_bind_ok_iff] at ht
    rcases ht with ⟨i, hi, ht⟩
    rw [except_bind_ok_iff] at ht
    rcases ht with ⟨g, hg, ht⟩
    rw [except_bind_ok_iff] at ht
    rcases ht with ⟨e2, he2, _⟩
    intro k
    cases k
    · exact ⟨u, hu⟩
    · exact ⟨i, hi⟩
    · exact ⟨g, hg⟩
    · exact ⟨e2, he2⟩
  · intro h
    rcases h .USD with ⟨u, hu⟩
    rcases h .ILS with ⟨i, hi⟩
    rcases h .GBP with ⟨g, hg⟩
    rcases h .EURO with ⟨e2, he2⟩
    exact ⟨⟨some u, some i, some g, some e2⟩, by simp [normalizeRates, hu, hi, hg, he2]⟩

theorem vanillaNormalizeRates_ok_iff (o : RatesObj) :
    (∃ t, vanillaNormalizeRates o = .ok t) ↔ ∀ k : Currency, ∃ v, checkRate o k = .ok v := by
  constructor
  · rintro ⟨t, ht⟩
    simp only [vanillaNormalizeRates] at ht
    rw [except_bind_ok_iff] at ht
    rcases ht with ⟨u, hu, ht⟩
    rw [except_bind_ok_iff] at ht
    rcases ht with ⟨g, hg, ht⟩
    rw [except_bind_ok_iff] at ht
    rcases ht with ⟨e2, he2, ht⟩
    rw [except_bind_ok_iff] at ht
    rcases ht with ⟨i, hi, _⟩
    intro k
    cases k
    · exact ⟨u, hu⟩
    · exact ⟨i, hi⟩
    · exact ⟨g, hg⟩
    · exact ⟨e2, he2⟩
  · intro h
    rcases h .USD with ⟨u, hu⟩
    rcases h .ILS with ⟨i, hi⟩
    rcases h .GBP with ⟨g, hg⟩
    rcases h .EURO with ⟨e2, he2⟩
    exact ⟨⟨some u, some i, some g, some e2⟩,
      by simp [vanillaNormalizeRates, hu, hi, hg, he2]⟩

theorem normalizeRates_error_chain (o : RatesObj) (e : String)
    (h : normalizeRates o = .error e) : ∃ k : Currency, checkRate o k = .error e := by
  simp only [normalizeRates] at h
  cases hu : checkRate o .USD with
  | error eu =>
      rw [hu] at h
      simp at h
      exact ⟨.USD, by rw [hu, h]⟩
  | ok u =>
      rw [hu] at h
      simp only [except_bind_ok] at h
      cases hi : checkRate o .ILS with
      | error ei =>
          rw [hi] at h
          simp at h
          exact ⟨.ILS, by rw [hi, h]⟩
      | ok i =>
          rw [hi] at h
          simp only [except_bind_ok] at h
          cases hg : checkRate o .GBP with
          | error eg =>
              rw [hg] at h
              simp at h
              exact ⟨.GBP, by rw [hg, h]⟩
          | ok g =>
              rw [hg] at h
              simp only [except_bind_ok] at h
              cases he2 : checkRate o .EURO with
              | error ee =>
                  rw [he2] at h
                  simp at h
                  exact ⟨.EURO, by rw [he2, h]⟩
              | ok e3 =>
                  rw [he2] at h
                  simp at h

theorem vanillaNormalizeRates_error_chain (o : RatesObj) (e : String)
    (h : vanillaNormalizeRates o = .error e) :
    ∃ k : Currency, checkRate o k = .error e := by
  simp only [vanillaNormalizeRates] at h
  cases hu : checkRate o .USD with
  | error eu =>
      rw [hu] at h
      simp at h
      exact ⟨.USD, by rw [hu, h]⟩
  | ok u =>
      rw [hu] at h
      simp only [except_bind_ok] at h
      cases hg : checkRate o .GBP with
      | error eg =>
          rw [hg] at h
          simp at h
          exact ⟨.GBP, by rw [hg, h]⟩
      | ok g =>
          rw [hg] at h
          simp only [except_bind_ok] at h
          cases he2 : checkRate o .EURO with
          | error ee =>
              rw [he2] at h
              simp at h
              exact ⟨.EURO, by rw [he2, h]⟩
          | ok e3 =>
              rw [he2] at h
              simp only [except_bind_ok] at h
              cases hi : checkRate o .ILS with
              | error ei =>
                  rw [hi] at h
                  simp at h
                  exact ⟨.ILS, by rw [hi, h]⟩
              | ok i =>
                  rw [hi] at h
                  simp at h

theorem normalizeRates_ok_val (o t : RatesObj)
    (h : normalizeRates o = .ok t) : ∀ k : Currency, t.lookup k = o.lookup k := by
  simp only [normalizeRates] at h
  rw [except_bind_ok_iff] at h
  rcases h with ⟨u, hu, h⟩
  rw [except_bind_ok_iff] at h
  rcases h with ⟨i, hi, h⟩
  rw [except_bind_ok_iff] at h
  rcases h with ⟨g, hg, h⟩
  rw [except_bind_ok_iff] at h
  rcases h with ⟨e2, he2, h⟩
  have ht : t = ⟨some u, some i, some g, some e2⟩ := by
    have := h
    simp at this
    exact this.symm
  subst ht
  intro k
  cases k
  · exact (checkRate_ok_val o .USD u hu).symm
  · exact (checkRate_ok_val o .ILS i hi).symm
  · exact (checkRate_ok_val o .GBP g hg).symm
  · exact (checkRate_ok_val o .EURO e2 he2).symm

/-- C8: rate-table validation is all-or-nothing, in both implementations —
it succeeds exactly when all four keys are present with finite values strictly
greater than zero; the validated table has exactly the input's four entries; on
failure the error names an offending currency code (whose entry is invalid),
and no table is produced. -/
theorem normalizeRates_all_or_nothing (o : RatesObj) :
    ((∃ t, normalizeRates o = .ok t) ↔ ∀ k : Currency, validEntry o k)
    ∧ (∀ t, normalizeRates o = .ok t → ∀ k : Currency, t.lookup k = o.lookup k)
    ∧ (∀ e, normalizeRates o = .error e →
        ∃ k : Currency, ¬ validEntry o k ∧ e = "Invalid rate for " ++ k.code)
    ∧ ((∃ t, vanillaNormalizeRates o = .ok t) ↔ ∀ k : Currency, validEntry o k)
    ∧ (∀ e, vanillaNormalizeRates o = .error e →
        ∃ k : Currency, ¬ validEntry o k ∧ e = "Invalid rate for " ++ k.code) := by
  refine ⟨?_, fun t ht => normalizeRates_ok_val o t ht, ?_, ?_, ?_⟩
  · rw [normalizeRates_ok_iff]
    exact forall_congr' (fun k => checkRate_ok_iff o k)
  · intro e he
    rcases normalizeRates_error_chain o e he with ⟨k, hk⟩
    rcases checkRate_error_name o k e hk with ⟨he2, hnv⟩
    exact ⟨k, hnv, he2⟩
  · rw [vanillaNormalizeRates_ok_iff]
    exact forall_congr' (fun k => checkRate_ok_iff o k)
  · intro e he
    rcases vanillaNormalizeRates_error_chain o e he with ⟨k, hk⟩
    rcases checkRate_error_name o k e hk with ⟨he2, hnv⟩
    exact ⟨k, hnv, he2⟩

/-- C8 (witness): validating the empty rates object fails naming an offending
currency whose entry is indeed invalid. -/
theorem normalizeRates_all_or_nothing_witness :
    ∃ k : Currency, ¬ validEntry tblEmpty k
      ∧ ("Invalid rate for " ++ Currency.USD.code) = "Invalid rate for " ++ k.code :=
  (normalizeRates_all_or_nothing tblEmpty).2.2.1
    ("Invalid rate for " ++ Currency.USD.code) rfl

theorem keyLookup_cons (p : Option JSNum × JSNum) (rest : List (Option JSNum × JSNum))
    (k : Option JSNum) :
    IdbSvc.keyLookup (p :: rest) k =
      if IdbSvc.svzOptEq p.1 k then some p.2 else IdbSvc.keyLookup rest k := by
  by_cases h : IdbSvc.svzOptEq p.1 k = true <;>
    simp [IdbSvc.keyLookup, List.find?_cons, h]

theorem keyLookup_keyUpsert :
    ∀ (m : List (Option JSNum × JSNum)) (k2 : Option JSNum) (v : JSNum)
      (k : Option JSNum),
      IdbSvc.keyLookup (IdbSvc.keyUpsert m k2 v) k ≠ none →
      IdbSvc.keyLookup m k ≠ none ∨ IdbSvc.svzOptEq k2 k = true := by
  intro m
  induction m with
  | nil =>
      intro k2 v k h
      cases hb : IdbSvc.svzOptEq k2 k with
      | true => exact Or.inr rfl
      | false =>
          exfalso
          apply h
          simp [IdbSvc.keyUpsert, keyLookup_cons, hb, IdbSvc.keyLookup]
  | cons p rest ih =>
      intro k2 v k h
      by_cases hp : IdbSvc.svzOptEq p.1 k2 = true
      · rw [show IdbSvc.keyUpsert (p :: rest) k2 v = (p.1, v) :: rest from
            by simp [IdbSvc.keyUpsert, hp]] at h
        rw [keyLookup_cons] at h
        cases hpk : IdbSvc.svzOptEq p.1 k with
        | true =>
            left
            rw [keyLookup_cons, if_pos hpk]
            simp
        | false =>
            left
            rw [if_neg (by simp [hpk])] at h
            rw [keyLookup_cons, if_neg (by simp [hpk])]
            exact h
      · rw [show IdbSvc.keyUpsert (p :: rest) k2 v = p :: IdbSvc.keyUpsert rest k2 v from
            by simp [IdbSvc.keyUpsert, hp]] at h
        rw [keyLookup_cons] at h
        cases hpk : IdbSvc.svzOptEq p.1 k with
        | true =>
            left
            rw [keyLookup_cons, if_pos hpk]
            simp
        | false =>
            rw [if_neg (by simp [hpk])] at h
            rcases ih k2 v k h with h1 | h2
            · left
              rw [keyLookup_cons, if_neg (by simp [hpk])]
              exact h1
            · exact Or.inr h2

theorem ymStep_ok_shape (cur : Currency) (r : Option RatesObj)
    (acc : List (Option JSNum × JSNum)) (c : StoredCost)
    (b : List (Option JSNum × JSNum)) (h : IdbSvc.ymStep cur r acc c = .ok b) :
    ∃ amount, b = IdbSvc.keyUpsert acc c.Date.month
      (jsAdd (match IdbSvc.keyLookup acc c.Date.month with
              | none => JSNum.fin 0
              | some p => jsOr p (.fin 0)) amount) := by
  simp only [IdbSvc.ymStep] at h
  rw [except_bind_ok_iff] at h
  rcases h with ⟨amount, _, hp⟩
  refine ⟨amount, ?_⟩
  have := hp
  simp at this
  exact this.symm

theorem ymFold_keys (cur : Currency) (r : Option RatesObj) :
    ∀ (l : List StoredCost) (acc mp : List (Option JSNum × JSNum)),
      foldlME (IdbSvc.ymStep cur r) acc l = .ok mp →
      ∀ k, IdbSvc.keyLookup mp k ≠ none →
        IdbSvc.keyLookup acc k ≠ none
          ∨ ∃ c ∈ l, IdbSvc.svzOptEq c.Date.month k = true := by
  intro l
  induction l with
  | nil =>
      intro acc mp h k hk
      left
      have : acc = mp := by simpa [foldlME] using h
      rw [this]
      exact hk
  | cons c t ih =>
      intro acc mp h k hk
      simp only [foldlME] at h
      rw [except_bind_ok_iff] at h
      rcases h with ⟨b, hb, hrec⟩
      rcases ih b mp hrec k hk with hacc | ⟨c2, hc2, hm⟩
      · rcases ymStep_ok_shape cur r acc c b hb with ⟨amount, rfl⟩
        rcases keyLookup_keyUpsert acc c.Date.month _ k hacc with h1 | h2
        · exact Or.inl h1
        · exact Or.inr ⟨c, List.mem_cons_self c t, h2⟩
      · exact Or.inr ⟨c2, List.mem_cons_of_mem c hc2, hm⟩

/-- C9: whenever `getYearMonthTotals` returns, it returns exactly 12 entries,
labelled `01` through `12` in order, and any month with no matching record
(same year, SameValueZero-equal month number) has total 0. -/
theorem yearMonthTotals_twelve_entries (rows : List StoredCost) (r : Option RatesObj)
    (y : ℤ) (cur : Currency) (l : List (String × JSNum))
    (h : IdbSvc.getYearMonthTotals rows r y cur = .ok l) :
    l.length = 12
    ∧ (∀ i : ℕ, i < 12 → ∃ v, l[i]? = some (IdbSvc.pad2 (i + 1), v))
    ∧ (∀ i : ℕ, i < 12 →
        (∀ c ∈ rows, IdbSvc.matchY y c = true →
          IdbSvc.svzOptEq c.Date.month (some (.fin ((i : ℚ) + 1))) = false) →
        l[i]? = some (IdbSvc.pad2 (i + 1), .fin 0)) := by
  simp only [IdbSvc.getYearMonthTotals] at h
  rw [except_bind_ok_iff] at h
  rcases h with ⟨mp, hmp, hp⟩
  have hl : l = (List.range 12).map (fun i =>
      (IdbSvc.pad2 (i + 1),
       jsOr (match IdbSvc.keyLookup mp (some (.fin ((i : ℚ) + 1))) with
             | none => JSNum.fin 0
             | some v => v) (.fin 0))) := by
    have := hp
    simp at this
    exact this.symm
  subst hl
  refine ⟨by simp, ?_, ?_⟩
  · intro i hi
    refine ⟨jsOr (match IdbSvc.keyLookup mp (some (.fin ((i : ℚ) + 1))) with
             | none => JSNum.fin 0
             | some v => v) (.fin 0), ?_⟩
    simp [List.getElem?_map, List.getElem?_range, hi]
  · intro i hi hnone
    have hkey : IdbSvc.keyLookup mp (some (.fin ((i : ℚ) + 1))) = none := by
      by_contra hc
      rcases ymFold_keys cur r (rows.filter (IdbSvc.matchY y)) [] mp hmp _ hc with
        h1 | ⟨c, hcmem, hm⟩
      · exact h1 rfl
      · rcases List.mem_filter.mp hcmem with ⟨hcrows, hcy⟩
        rw [hnone c hcrows hcy] at hm
        cases hm
    simp [List.getElem?_map, List.getElem?_range, hi, hkey, jsOr, jsTruthy]

/-- C9 (witness): on the empty store the yearly view has exactly 12 entries
and its first entry is January with total 0. -/
theorem yearMonthTotals_twelve_entries_witness :
    ((List.range 12).map (fun i => (IdbSvc.pad2 (i + 1), JSNum.fin 0))).length = 12
    ∧ ((List.range 12).map
        (fun i => (IdbSvc.pad2 (i + 1), JSNum.fin 0)))[0]? =
          some (IdbSvc.pad2 1, JSNum.fin 0) := by
  have h0 : IdbSvc.getYearMonthTotals ([] : List StoredCost) none 2024 Currency.USD
      = .ok ((List.range 12).map (fun i => (IdbSvc.pad2 (i + 1), JSNum.fin 0))) := by
    simp only [IdbSvc.getYearMonthTotals, List.filter, foldlME, except_bind_ok,
      except_pure_eq]
    congr 1
  refine ⟨(yearMonthTotals_twelve_entries [] none 2024 Currency.USD _ h0).1, ?_⟩
  exact (yearMonthTotals_twelve_entries [] none 2024 Currency.USD _ h0).2.2 0
    (by norm_num) (fun c hc => absurd hc (List.not_mem_nil c))

theorem jsToUpper_ne_empty (s : String) (h : s ≠ "") : jsToUpper s ≠ "" := by
  intro hc
  apply h
  have hd : s.data.map Char.toUpper = [] := congrArg String.data hc
  have hnil : s.data = [] := by simpa using hd
  exact String.ext hnil

/-- C10: the vanilla `addCost` accepts the misspelled `curency` field as an
alias for `currency`, uppercases the supplied currency string, and persists a
record for any non-empty currency string — membership in the four supported
codes is not checked, so a record with currency `"XYZ"` enters the store. -/
theorem vanilla_addCost_currency_laxity :
    (∀ (s cat : String) (now : CDate), s ≠ "" →
        VanillaIdb.addCost ⟨some (.fin 5), none, some s, some cat, none⟩ now =
          .ok ⟨.fin 5, jsToUpper s, cat, "", now⟩)
    ∧ (∀ (s cat : String) (now : CDate), s ≠ "" →
        VanillaIdb.addCost ⟨some (.fin 5), some s, none, some cat, none⟩ now =
          .ok ⟨.fin 5, jsToUpper s, cat, "", now⟩)
    ∧ (VanillaIdb.addCost ⟨some (.fin 5), some "xyz", none, some "c", none⟩ d0 =
          .ok ⟨.fin 5, "XYZ", "c", "", d0⟩
        ∧ ("XYZ" ≠ Currency.USD.code ∧ "XYZ" ≠ Currency.ILS.code
            ∧ "XYZ" ≠ Currency.GBP.code ∧ "XYZ" ≠ Currency.EURO.code)) := by
  refine ⟨?_, ?_, ?_, ?_⟩
  · intro s cat now hs
    have hts := jsToUpper_ne_empty s hs
    simp [VanillaIdb.addCost, VanillaIdb.strFieldTruthy, numField, jsIsFinite, hs, hts]
  · intro s cat now hs
    have hts := jsToUpper_ne_empty s hs
    simp [VanillaIdb.addCost, VanillaIdb.strFieldTruthy, numField, jsIsFinite, hs, hts]
  · decide
  · decide

/-- C10 (witness): the alias and laxity at concrete inputs — the misspelled
field `curency: "ils"` is accepted and uppercased, and the unsupported code
`"xyz"` is stored as `"XYZ"`. -/
theorem vanilla_addCost_currency_laxity_witness :
    VanillaIdb.addCost ⟨some (.fin 5), none, some "ils", some "food", none⟩ d0 =
        .ok ⟨.fin 5, jsToUpper "ils", "food", "", d0⟩
    ∧ VanillaIdb.addCost ⟨some (.fin 5), some "xyz", none, some "c", none⟩ d0 =
        .ok ⟨.fin 5, "XYZ", "c", "", d0⟩ :=
  ⟨vanilla_addCost_currency_laxity.1 "ils" "food" d0 (by decide),
   vanilla_addCost_currency_laxity.2.2.1⟩
